import Mathlib

/-!
Shallow embedding of `src/leaderscript.js` (a leaderboard page script) and
proofs of its specified properties.

The script has four stages: `fetchCSV` (HTTP with proxy fallback), `parseCSV`
(comma/newline splitting), `transformData` (field resolution, numeric
coercion, stable descending sort) and `renderLeaderboard` (full replacement
of the table body).  JavaScript strings are Lean `String`s, JS objects used
as records are `String → Option String` (absent key = `none`), JS numbers
produced by `parseFloat` are idealized as exact rationals extended with the
two infinities (`JsNum`); `NaN` is represented by `Option.none` at the parse
result.  The DOM table body is `Option (List Row)` (`none` = element absent).
-/

/-! ## JavaScript string primitives -/

/-- Characters accepted by JavaScript `String.prototype.trim` (ECMA
WhiteSpace ∪ LineTerminator). -/
def jsIsWhitespace (c : Char) : Bool :=
  c = ' ' ∨ c = Char.ofNat 9 ∨ c = Char.ofNat 10 ∨ c = Char.ofNat 11 ∨
  c = Char.ofNat 12 ∨ c = Char.ofNat 13 ∨ c = Char.ofNat 160 ∨
  c = Char.ofNat 0xFEFF ∨ c = Char.ofNat 0x1680 ∨
  (Char.ofNat 0x2000 ≤ c ∧ c ≤ Char.ofNat 0x200A) ∨
  c = Char.ofNat 0x2028 ∨ c = Char.ofNat 0x2029 ∨ c = Char.ofNat 0x202F ∨
  c = Char.ofNat 0x205F ∨ c = Char.ofNat 0x3000

/-- JavaScript `s.trim()`: strips `jsIsWhitespace` characters from both ends. -/
def jsTrim (s : String) : String :=
  String.mk (((s.data.dropWhile jsIsWhitespace).reverse.dropWhile jsIsWhitespace).reverse)

/-- Split on a single-character separator, JS `s.split(sep)` semantics:
always returns at least one (possibly empty) field. -/
def splitOnCharAux (sep : Char) : List Char → List Char → List String
  | [], acc => [String.mk acc.reverse]
  | c :: rest, acc =>
    if c = sep then String.mk acc.reverse :: splitOnCharAux sep rest []
    else splitOnCharAux sep rest (c :: acc)

/-- JS `s.split(',')`. -/
def splitComma (s : String) : List String :=
  splitOnCharAux ',' s.data []

/-- JS `s.split(/\r?\n/)`: "\r\n" and "\n" separate lines; a lone "\r" does
not (the regex alternative `\r?` is greedy at a `\r\n` boundary). -/
def splitLinesAux : List Char → List Char → List String
  | [], acc => [String.mk acc.reverse]
  | '\r' :: '\n' :: rest, acc => String.mk acc.reverse :: splitLinesAux rest []
  | '\n' :: rest, acc => String.mk acc.reverse :: splitLinesAux rest []
  | c :: rest, acc => splitLinesAux rest (c :: acc)

/-- JS `s.split(/\r?\n/)`. -/
def splitLines (s : String) : List String :=
  splitLinesAux s.data []

/-! ## Parser (`parseCSV`, `src/leaderscript.js` lines 64–79) -/

/-- A parsed row object: JS object keyed by header name. -/
abbrev Record := String → Option String

/-- The loop body of `headers.forEach((header, idx) => row[header] = (cells[idx] || '').trim())`:
later assignments to the same key overwrite earlier ones. -/
def buildRowAux (cells : List String) : (String → Option String) → Nat → List String → (String → Option String)
  | acc, _, [] => acc
  | acc, i, h :: hs =>
    buildRowAux cells (fun k => if k = h then some (jsTrim (cells.getD i "")) else acc k) (i + 1) hs

/-- Builds one `Record` from the header list and the split cells of a line. -/
def buildRow (headers cells : List String) : Record :=
  buildRowAux cells (fun _ => none) 0 headers

/-- `parseCSV` from the source: trim, split into lines, first line gives the
headers (each trimmed), every later line is split on commas; a line that
splits to a single empty field is skipped; otherwise headers are zipped to
trimmed cells positionally, missing positions defaulting to the empty
string. -/
def parseCSV (csv : String) : List Record :=
  match splitLines (jsTrim csv) with
  | [] => []
  | first :: rest =>
    rest.filterMap (fun line =>
      if (splitComma line).length = 1 ∧ (splitComma line).getD 0 "" = "" then none
      else some (buildRow ((splitComma first).map jsTrim) (splitComma line)))

/-! ## JavaScript numbers and `parseFloat`

JS numbers arising here are `parseFloat` results: idealized as exact
rationals plus the two infinities (`parseFloat("Infinity")`); a `NaN` parse
result is `none`. -/

/-- A JavaScript number as produced by `parseFloat` on a successful parse:
a finite value (idealized as an exact rational) or one of the infinities. -/
inductive JsNum : Type
  | num (q : ℚ)
  | posInf
  | negInf
deriving DecidableEq

/-- The numeric order on `JsNum` (total preorder; used through the sort
comparator `(a, b) => b.score - a.score`, whose `NaN` results on pairs of
like infinities are treated as 0, i.e. as ties, by the JS sort). -/
def jsNumLe : JsNum → JsNum → Bool
  | JsNum.negInf, _ => true
  | _, JsNum.posInf => true
  | JsNum.posInf, _ => false
  | _, JsNum.negInf => false
  | JsNum.num a, JsNum.num b => a ≤ b

/-- Numeric value of a digit string (most significant first). -/
def digitsToNat (ds : List Char) : Nat :=
  ds.foldl (fun n c => 10 * n + (c.toNat - 48)) 0

/-- Value of an optional exponent part at the tail of a numeric literal:
`e`/`E`, optional sign, digits; an exponent with no digits contributes 0
(it is then not part of the accepted literal prefix). -/
def expOf (cs : List Char) : Int :=
  match cs with
  | [] => 0
  | c :: rest =>
    if c = 'e' ∨ c = 'E' then
      match rest with
      | '+' :: r => (digitsToNat (r.takeWhile Char.isDigit) : Int)
      | '-' :: r => -(digitsToNat (r.takeWhile Char.isDigit) : Int)
      | r => (digitsToNat (r.takeWhile Char.isDigit) : Int)
    else 0

/-- Exact value of a decimal literal `sign intPart . fracPart e exp`. -/
def decValue (sign : Int) (intPart fracPart : List Char) (exp : Int) : ℚ :=
  (sign : ℚ) * ((digitsToNat intPart : ℚ) + (digitsToNat fracPart : ℚ) / (10 : ℚ) ^ fracPart.length)
    * (10 : ℚ) ^ exp

/-- JavaScript `parseFloat`: skip leading whitespace, optional sign, then
the longest `StrUnsignedDecimalLiteral` prefix (`Infinity`, or digits with
optional fraction and exponent); no digits at all yields `NaN` (`none`).
Finite values are exact rationals (double rounding is idealized away). -/
def jsParseFloat (s : String) : Option JsNum :=
  let cs := s.data.dropWhile jsIsWhitespace
  let sc : Int × List Char :=
    match cs with
    | '+' :: r => (1, r)
    | '-' :: r => (-1, r)
    | r => (1, r)
  if List.isPrefixOf "Infinity".data sc.2 then
    some (if sc.1 = 1 then JsNum.posInf else JsNum.negInf)
  else
    let intPart := sc.2.takeWhile Char.isDigit
    let rest1 := sc.2.dropWhile Char.isDigit
    let fr : List Char × List Char :=
      match rest1 with
      | '.' :: r => (r.takeWhile Char.isDigit, r.dropWhile Char.isDigit)
      | r => ([], r)
    if intPart.isEmpty && fr.1.isEmpty then none
    else some (JsNum.num (decValue sc.1 intPart fr.1 (expOf fr.2)))

/-! ## Transformer (`transformData`, `src/leaderscript.js` lines 89–101) -/

/-- A normalized leaderboard entry `{name, dealership, score}`.  In the JS
object `dealership` may be `undefined` when none of its source headers is
truthy, hence `Option String`. -/
structure Entry : Type where
  name : String
  dealership : Option String
  score : JsNum
deriving DecidableEq

/-- JS truthiness of a possibly-undefined string: `undefined` and `""` are
falsy, all other strings truthy. -/
def truthyStr : Option String → Bool
  | none => false
  | some s => s ≠ ""

/-- JS `a || b` on possibly-undefined strings. -/
def jsOr (a b : Option String) : Option String :=
  if truthyStr a then a else b

/-- Source line 92: `row['First Name'] || row['First name'] || row['First']`. -/
def resolveFirstName (row : Record) : Option String :=
  jsOr (jsOr (row "First Name") (row "First name")) (row "First")

/-- Source line 93: `row['Last Name'] || row['Last name'] || row['Last']`. -/
def resolveLastName (row : Record) : Option String :=
  jsOr (jsOr (row "Last Name") (row "Last name")) (row "Last")

/-- Source line 94: `row['Dealership'] || row['Dealer'] || row['Company']`. -/
def resolveDealership (row : Record) : Option String :=
  jsOr (jsOr (row "Dealership") (row "Dealer")) (row "Company")

/-- Source line 95: `row['Total Score'] || row['Score'] || row['Total']`. -/
def resolveScoreText (row : Record) : Option String :=
  jsOr (jsOr (row "Total Score") (row "Score")) (row "Total")

/-- Source lines 96 and 98: `parseFloat(scoreStr)` then
`isNaN(score) ? 0 : score`.  `parseFloat(undefined)` coerces the argument to
the string `"undefined"`, which parses to `NaN`, so the absent case is also
`NaN` and yields 0. -/
def parseScore (scoreStr : Option String) : JsNum :=
  match scoreStr with
  | none => JsNum.num 0
  | some s =>
    match jsParseFloat s with
    | none => JsNum.num 0
    | some v => v

/-- Source line 97: `[firstName, lastName].filter(Boolean).join(' ')`. -/
def jsFilterJoin (parts : List (Option String)) : String :=
  String.intercalate " " (parts.filterMap (fun o =>
    match o with
    | none => none
    | some s => if s = "" then none else some s))

/-- The body of the `.map` in `transformData` (source lines 91–99). -/
def toEntry (row : Record) : Entry :=
  { name := jsFilterJoin [resolveFirstName row, resolveLastName row]
    dealership := resolveDealership row
    score := parseScore (resolveScoreText row) }

/-- `transformData`: map each row to an `Entry`, then sort with the
comparator `(a, b) => b.score - a.score`.  The JS sort is required to be
stable and to order by the comparator's sign, which for this comparator is
exactly a stable sort by `jsNumLe b.score a.score`; `List.mergeSort` is such
a stable sort. -/
def transformData (rows : List Record) : List Entry :=
  (rows.map toEntry).mergeSort (fun a b => jsNumLe b.score a.score)

/-! ## Fetcher (`fetchCSV`, `src/leaderscript.js` lines 24–52) -/

/-- Characters `encodeURIComponent` leaves unescaped:
`A`–`Z`, `a`–`z`, `0`–`9` and `- _ . ! ~ * ' ( )`. -/
def isUnreservedURIChar (c : Char) : Bool :=
  ('A' ≤ c ∧ c ≤ 'Z') ∨ ('a' ≤ c ∧ c ≤ 'z') ∨ ('0' ≤ c ∧ c ≤ '9') ∨
  c = '-' ∨ c = '_' ∨ c = '.' ∨ c = '!' ∨ c = '~' ∨ c = '*' ∨
  c = Char.ofNat 39 ∨ c = '(' ∨ c = ')'

/-- Upper-case hexadecimal digit for a value below 16. -/
def hexDigit (n : Nat) : Char :=
  if n < 10 then Char.ofNat (48 + n) else Char.ofNat (65 + n - 10)

/-- Percent-encoding of one byte, e.g. `%2F`. -/
def percentEncodeByte (b : UInt8) : List Char :=
  ['%', hexDigit (b.toNat / 16), hexDigit (b.toNat % 16)]

/-- The browser builtin `encodeURIComponent`: unreserved characters are kept,
every other character is replaced by the percent-encoding of its UTF-8
bytes. -/
def encodeURIComponent (s : String) : String :=
  String.mk (s.data.flatMap (fun c =>
    if isUnreservedURIChar c then [c]
    else (String.utf8EncodeChar c).flatMap percentEncodeByte))

/-- Outcome of one `fetch(target)`: a network-level rejection (message of the
thrown error), or an HTTP response with its status and body text. -/
inductive FetchOutcome : Type
  | netError (msg : String)
  | response (status : Nat) (body : String)
deriving DecidableEq

/-- Source line 33: the ordered prefix-strategy list; `''` is the direct
request, the others are CORS proxies. -/
def proxies : List String :=
  ["", "https://corsproxy.io/?", "https://api.allorigins.win/raw?url="]

/-- Source line 36: `prefix ? prefix + encodeURIComponent(url) : url`. -/
def strategyTarget (url p : String) : String :=
  if p ≠ "" then p ++ encodeURIComponent url else url

/-- The loop of `fetchCSV` over the remaining prefixes, also recording every
target actually fetched, in order.  A network error is caught and remembered
as `lastError`; a non-2xx status throws `HTTP <status>` which is caught
likewise; an OK response whose body is empty after trimming falls through to
the next strategy without touching `lastError`; an OK, non-blank body is
returned immediately.  When the list is exhausted, the last captured error
(or `Unable to fetch CSV`) is thrown. -/
def fetchCSVAux (w : String → FetchOutcome) (url : String) :
    List String → Option String → Except String String × List String
  | [], lastError => (Except.error (lastError.getD "Unable to fetch CSV"), [])
  | p :: rest, lastError =>
    match w (strategyTarget url p) with
    | FetchOutcome.netError msg =>
      let r := fetchCSVAux w url rest (some msg)
      (r.1, strategyTarget url p :: r.2)
    | FetchOutcome.response status body =>
      if 200 ≤ status ∧ status ≤ 299 then
        if body ≠ "" ∧ jsTrim body ≠ "" then (Except.ok body, [strategyTarget url p])
        else
          let r := fetchCSVAux w url rest lastError
          (r.1, strategyTarget url p :: r.2)
      else
        let r := fetchCSVAux w url rest (some ("HTTP " ++ toString status))
        (r.1, strategyTarget url p :: r.2)

/-- `fetchCSV`: result of trying the strategies in declared order against
the ambient fetch behaviour `w`. -/
def fetchCSV (w : String → FetchOutcome) (url : String) : Except String String :=
  (fetchCSVAux w url proxies none).1

/-- The targets `fetchCSV` actually requests, in order. -/
def fetchTargets (w : String → FetchOutcome) (url : String) : List String :=
  (fetchCSVAux w url proxies none).2

/-- A strategy attempt that does not produce the returned body: a network
error, a non-2xx status, or a body that is blank after trimming. -/
def strategyFails : FetchOutcome → Prop
  | FetchOutcome.netError _ => True
  | FetchOutcome.response status body => ¬(200 ≤ status ∧ status ≤ 299) ∨ jsTrim body = ""

/-! ## Renderer (`renderLeaderboard`, `src/leaderscript.js` lines 111–183) -/

/-- One `<tr>` as built by the renderer: the rank-dependent row class and
badge colours, the badge text `#<rank>`, the name, the dealership label
(shown twice: under the name on small screens and in its own cell on wide
ones; `textContent = undefined` is the null-to-empty conversion), and the
score shown in the score badge followed by `%`. -/
structure Row : Type where
  rankClass : String
  badgeBg : String
  badgeBorder : String
  badgeColor : String
  badgeText : String
  name : String
  dealershipSmall : String
  dealershipCell : String
  score : JsNum

/-- Builds the row for a 1-based rank, mirroring source lines 116–181. -/
def mkRow (rank : Nat) (e : Entry) : Row :=
  { rankClass :=
      if rank = 1 then "rank-1" else if rank = 2 then "rank-2"
      else if rank = 3 then "rank-3" else "rank-default"
    badgeBg :=
      if rank = 1 then "#3893B7" else if rank = 2 then "#E8F4F8"
      else if rank = 3 then "#FCF7EF" else "#3893B7"
    badgeBorder :=
      if rank = 1 then "#21A4D2" else if rank = 2 then "#3893B7"
      else if rank = 3 then "#21A4D2" else "#21A4D2"
    badgeColor :=
      if rank = 1 then "#FCF7EF" else if rank = 2 then "#3893B7"
      else if rank = 3 then "#21A4D2" else "#FCF7EF"
    badgeText := "#" ++ toString rank
    name := e.name
    dealershipSmall := e.dealership.getD ""
    dealershipCell := e.dealership.getD ""
    score := e.score }

/-- The display surface: `none` when `document.getElementById` finds no
`leaderboard-body` element, otherwise the list of child rows. -/
abbrev Dom := Option (List Row)

/-- `renderLeaderboard`: no-op when the table body is absent; otherwise
clears it (`tbody.innerHTML = ''`) and appends one row per entry, rank being
the 1-based index. -/
def renderLeaderboard (data : List Entry) (dom : Dom) : Dom :=
  match dom with
  | none => none
  | some _ => some (data.enum.map (fun p => mkRow (p.1 + 1) p.2))

/-! ## Orchestration (`refreshLeaderboard`, `src/leaderscript.js` lines 191–200) -/

/-- Source lines 8–9. -/
def SHEET_CSV_URL : String :=
  "https://docs.google.com/spreadsheets/d/e/2PACX-1vSLR7bXsB-PSdKArkvh4vrTP3QCXg9SkvXL7wYD49VFomRw0UqmQiXeRxkJJ0Ei7Fpo8rz5UgT25gCw/pub?gid=1152586903&single=true&output=csv"

/-- One refresh cycle: fetch, parse, transform, render, inside a `try`; on
any thrown error the cycle is dropped, the error is logged with the fixed
prefix, and the display surface is not written.  Parse, transform and render
are total, so the only throwing stage is the fetch. -/
def refreshLeaderboard (w : String → FetchOutcome) (dom : Dom) (log : List String) :
    Dom × List String :=
  match fetchCSV w SHEET_CSV_URL with
  | Except.error e => (dom, log ++ ["Failed to update leaderboard: " ++ e])
  | Except.ok csv => (renderLeaderboard (transformData (parseCSV csv)) dom, log)

/-! ## Spec-level definitions and concrete inputs used by witnesses -/

/-- Modelled from the spec's words for claim C3 ("the first alternative that
is present in the Record wins"): the first alternative that is present and
non-empty; used to state the amended resolution rule. -/
def firstTruthy (l : List (Option String)) : Option String :=
  l.findSome? (fun o =>
    match o with
    | none => none
    | some s => if s = "" then none else some s)

/-- A record whose first first-name alternative is present but empty while a
later alternative is non-empty. -/
def rC3 : Record := fun k =>
  if k = "First Name" then some "" else
  if k = "First" then some "X" else
  if k = "Last Name" then some "Lee" else none

/-- A record whose only score header carries unparsable text. -/
def rC5 : Record := fun k =>
  if k = "Total Score" then some "abc" else none

/-- A record with a last name and no first-name header at all. -/
def rC8 : Record := fun k =>
  if k = "Last Name" then some "Lee" else none

/-- A record with all four fields present and non-empty. -/
def rC3w : Record := fun k =>
  if k = "First Name" then some "Ann" else
  if k = "Last Name" then some "Lee" else
  if k = "Dealership" then some "Acme" else
  if k = "Total Score" then some "88" else none

/-- A fetch behaviour for the C2 witness: the direct request gets a 404, any
other target a 200 with body `data`. -/
def wC2 : String → FetchOutcome := fun t =>
  if t = "https://x.test/a" then FetchOutcome.response 404 ""
  else FetchOutcome.response 200 "data"

/-- A fetch behaviour where every request fails at the network level. -/
def wC6 : String → FetchOutcome := fun _ =>
  FetchOutcome.netError "net down"

/-- A throwaway entry used to build concrete lists for the renderer claims. -/
def eC7 (n : String) : Entry :=
  { name := n, dealership := some "Acme", score := JsNum.num 1 }

/-! ## Helper lemmas: splitting -/

theorem splitOnCharAux_ne_nil (sep : Char) :
    ∀ (cs acc : List Char), splitOnCharAux sep cs acc ≠ [] := by
  intro cs
  induction cs with
  | nil => intro acc; simp [splitOnCharAux]
  | cons c rest ih =>
    intro acc
    by_cases h : c = sep
    · simp [splitOnCharAux, h]
    · simpa [splitOnCharAux, h] using ih (c :: acc)

theorem splitOnCharAux_single (sep : Char) :
    ∀ (cs acc : List Char) (x : String), splitOnCharAux sep cs acc = [x] →
      sep ∉ cs ∧ x = String.mk (acc.reverse ++ cs) := by
  intro cs
  induction cs with
  | nil =>
    intro acc x h
    simp only [splitOnCharAux, List.cons.injEq, and_true] at h
    simp [← h]
  | cons c rest ih =>
    intro acc x h
    by_cases hc : c = sep
    · rw [splitOnCharAux, if_pos hc] at h
      have := splitOnCharAux_ne_nil sep rest []
      simp only [List.cons.injEq] at h
      exact absurd h.2.symm this.symm
    · rw [splitOnCharAux, if_neg hc] at h
      obtain ⟨hmem, hx⟩ := ih (c :: acc) x h
      refine ⟨?_, ?_⟩
      · intro hm
        rcases List.mem_cons.mp hm with h1 | h1
        · exact hc h1.symm
        · exact hmem h1
      · rw [hx]
        simp

theorem splitOnCharAux_no_sep (sep : Char) :
    ∀ (cs acc : List Char), sep ∉ cs →
      splitOnCharAux sep cs acc = [String.mk (acc.reverse ++ cs)] := by
  intro cs
  induction cs with
  | nil => intro acc _; simp [splitOnCharAux]
  | cons c rest ih =>
    intro acc hmem
    have hc : ¬(c = sep) := fun h => hmem (h ▸ List.mem_cons_self c rest)
    rw [splitOnCharAux, if_neg hc, ih (c :: acc) (fun h => hmem (List.mem_cons_of_mem c h))]
    simp

theorem splitComma_blank_iff (l : String) :
    ((splitComma l).length = 1 ∧ (splitComma l).getD 0 "" = "") ↔ l = "" := by
  constructor
  · rintro ⟨h1, h2⟩
    obtain ⟨x, hx⟩ := List.length_eq_one.mp h1
    obtain ⟨-, hval⟩ := splitOnCharAux_single ',' l.data [] x hx
    rw [hx] at h2
    simp only [List.getD_cons_zero] at h2
    have : x = l := by rw [hval]; rfl
    rw [← this, h2]
  · intro h
    subst h
    exact ⟨rfl, rfl⟩

/-! ## Helper lemmas: row building -/

theorem buildRowAux_not_mem (cells : List String) (k : String) :
    ∀ (hs : List String) (acc : String → Option String) (i : Nat), k ∉ hs →
      buildRowAux cells acc i hs k = acc k := by
  intro hs
  induction hs with
  | nil => intro acc i _; rfl
  | cons h t ih =>
    intro acc i hk
    rw [buildRowAux, ih _ _ (fun hm => hk (List.mem_cons_of_mem h hm))]
    have hne : ¬(k = h) := fun he => hk (he ▸ List.mem_cons_self h t)
    simp [hne]

theorem buildRowAux_getD (cells : List String) :
    ∀ (hs : List String) (acc : String → Option String) (i j : Nat),
      hs.Nodup → j < hs.length →
      buildRowAux cells acc i hs (hs.getD j "") = some (jsTrim (cells.getD (i + j) "")) := by
  intro hs
  induction hs with
  | nil => intro acc i j _ hj; simp at hj
  | cons h t ih =>
    intro acc i j hnd hj
    rw [List.nodup_cons] at hnd
    match j with
    | 0 =>
      rw [List.getD_cons_zero, buildRowAux, buildRowAux_not_mem cells h t _ (i + 1) hnd.1]
      simp
    | j' + 1 =>
      rw [List.getD_cons_succ, buildRowAux]
      have harith : i + 1 + j' = i + (j' + 1) := by omega
      rw [ih _ (i + 1) j' hnd.2 (by simpa using hj), harith]

theorem buildRowAux_mem_blank (cells : List String)
    (hall : ∀ i, jsTrim (cells.getD i "") = "") :
    ∀ (hs : List String) (acc : String → Option String) (i : Nat) (k : String), k ∈ hs →
      buildRowAux cells acc i hs k = some "" := by
  intro hs
  induction hs with
  | nil => intro _ _ _ hk; simp at hk
  | cons h t ih =>
    intro acc i k hk
    by_cases hkt : k ∈ t
    · rw [buildRowAux]; exact ih _ _ _ hkt
    · have hk0 : k = h := by
        rcases List.mem_cons.mp hk with h1 | h1
        · exact h1
        · exact absurd h1 hkt
      rw [buildRowAux, buildRowAux_not_mem cells k t _ _ hkt]
      simp only [hk0, if_pos rfl, Option.some.injEq]
      simpa [List.getD] using hall i

/-! ## Helper lemmas: trimming and parseCSV shape -/

theorem jsTrim_of_all_ws (l : String) (h : ∀ c ∈ l.data, jsIsWhitespace c = true) :
    jsTrim l = "" := by
  unfold jsTrim
  rw [List.dropWhile_eq_nil_iff.mpr h]
  rfl

theorem parseCSV_cons (header : String) (dataLines : List String) (text : String)
    (hsplit : splitLines (jsTrim text) = header :: dataLines) :
    parseCSV text = dataLines.filterMap (fun line =>
      if (splitComma line).length = 1 ∧ (splitComma line).getD 0 "" = "" then none
      else some (buildRow ((splitComma header).map jsTrim) (splitComma line))) := by
  unfold parseCSV
  rw [hsplit]

theorem filterMap_blank_eq (headers : List String) (ls : List String) :
    ls.filterMap (fun line =>
      if (splitComma line).length = 1 ∧ (splitComma line).getD 0 "" = "" then none
      else some (buildRow headers (splitComma line)))
    = (ls.filter (fun l => l ≠ "")).map (fun l => buildRow headers (splitComma l)) := by
  induction ls with
  | nil => rfl
  | cons l rest ih =>
    by_cases hl : l = ""
    · subst hl
      have hc : ((splitComma "").length = 1 ∧ (splitComma "").getD 0 "" = "") := ⟨rfl, rfl⟩
      rw [List.filterMap_cons, if_pos hc, List.filter_cons]
      simpa using ih
    · have hc : ¬((splitComma l).length = 1 ∧ (splitComma l).getD 0 "" = "") :=
        fun h => hl ((splitComma_blank_iff l).mp h)
      rw [List.filterMap_cons, if_neg hc, ih, List.filter_cons,
        if_pos (by simpa using hl), List.map_cons]

/-! ## Claim C4 -/

/-- Claim C4: an input whose trimmed text splits into a well-formed header
line (distinct trimmed header names) followed by data lines yields exactly
one `Record` per non-blank data line; each such record has a key for every
header, with value the trimmed cell at the header's position, the empty
string for positions beyond the line's field count. -/
theorem parseCSV_wellformed_roundtrip (text header : String) (dataLines : List String)
    (hsplit : splitLines (jsTrim text) = header :: dataLines)
    (hnodup : ((splitComma header).map jsTrim).Nodup) :
    parseCSV text = (dataLines.filter (fun l => l ≠ "")).map
        (fun l => buildRow ((splitComma header).map jsTrim) (splitComma l))
    ∧ (parseCSV text).length = (dataLines.filter (fun l => l ≠ "")).length
    ∧ ∀ l ∈ dataLines, l ≠ "" →
        ∀ i, i < ((splitComma header).map jsTrim).length →
          buildRow ((splitComma header).map jsTrim) (splitComma l)
              (((splitComma header).map jsTrim).getD i "")
            = some (jsTrim ((splitComma l).getD i "")) := by
  have heq := (parseCSV_cons header dataLines text hsplit).trans
    (filterMap_blank_eq ((splitComma header).map jsTrim) dataLines)
  refine ⟨heq, by rw [heq]; simp, ?_⟩
  intro l _ _ i hi
  have h := buildRowAux_getD (splitComma l) ((splitComma header).map jsTrim)
    (fun _ => none) 0 i hnodup hi
  simpa [buildRow] using h

/-- Witness for C4 at the concrete input `"a,b\nx,y,z\n\npq"`. -/
theorem parseCSV_wellformed_roundtrip_witness :
    splitLines (jsTrim "a,b\nx,y,z\n\npq") = "a,b" :: ["x,y,z", "", "pq"]
    ∧ ((splitComma "a,b").map jsTrim).Nodup
    ∧ (parseCSV "a,b\nx,y,z\n\npq").length
        = (["x,y,z", "", "pq"].filter (fun l => l ≠ "")).length := by
  have h1 : splitLines (jsTrim "a,b\nx,y,z\n\npq") = "a,b" :: ["x,y,z", "", "pq"] := by decide
  have h2 : ((splitComma "a,b").map jsTrim).Nodup := by decide
  exact ⟨h1, h2,
    (parseCSV_wellformed_roundtrip "a,b\nx,y,z\n\npq" "a,b" ["x,y,z", "", "pq"] h1 h2).2.1⟩

/-! ## Claim C9 -/

/-- Claim C9: a data line consisting only of whitespace is not skipped as
blank — it yields a record mapping every header to the empty string — and
the only skipped lines are those whose raw content is completely empty
(the first conjunct filters out exactly the lines equal to `""`). -/
theorem parseCSV_whitespace_line_kept (text header : String) (dataLines : List String)
    (hsplit : splitLines (jsTrim text) = header :: dataLines) :
    parseCSV text = (dataLines.filter (fun l => l ≠ "")).map
        (fun l => buildRow ((splitComma header).map jsTrim) (splitComma l))
    ∧ ∀ l ∈ dataLines, l ≠ "" → (∀ c ∈ l.data, jsIsWhitespace c = true) →
        ∀ h ∈ (splitComma header).map jsTrim,
          buildRow ((splitComma header).map jsTrim) (splitComma l) h = some "" := by
  refine ⟨(parseCSV_cons header dataLines text hsplit).trans
    (filterMap_blank_eq ((splitComma header).map jsTrim) dataLines), ?_⟩
  intro l _ _ hws h hh
  have hnc : ',' ∉ l.data := fun hmem => absurd (hws ',' hmem) (by decide)
  have hsplitl : splitComma l = [l] := by
    unfold splitComma
    rw [splitOnCharAux_no_sep ',' l.data [] hnc]
    rfl
  have hall : ∀ i, jsTrim ((splitComma l).getD i "") = "" := by
    intro i
    rw [hsplitl]
    cases i with
    | zero => exact jsTrim_of_all_ws l hws
    | succ n => rfl
  exact buildRowAux_mem_blank (splitComma l) hall _ _ 0 h hh

/-- Witness for C9 at the concrete input `"a,b\n \nx"`, whose second line is
a single space. -/
theorem parseCSV_whitespace_line_kept_witness :
    splitLines (jsTrim "a,b\n \nx") = "a,b" :: [" ", "x"]
    ∧ (" " : String) ≠ ""
    ∧ ∀ h ∈ (splitComma "a,b").map jsTrim,
        buildRow ((splitComma "a,b").map jsTrim) (splitComma " ") h = some "" := by
  have h1 : splitLines (jsTrim "a,b\n \nx") = "a,b" :: [" ", "x"] := by decide
  exact ⟨h1, by decide,
    (parseCSV_whitespace_line_kept "a,b\n \nx" "a,b" [" ", "x"] h1).2 " "
      (by decide) (by decide) (by decide)⟩

/-! ## Helper lemmas: the score order and stable sorting -/

theorem jsNumLe_refl (a : JsNum) : jsNumLe a a = true := by
  cases a <;> simp [jsNumLe]

theorem jsNumLe_total (a b : JsNum) : (jsNumLe a b || jsNumLe b a) = true := by
  cases a <;> cases b <;> simp [jsNumLe]
  exact le_total _ _

theorem jsNumLe_trans (a b c : JsNum) (h1 : jsNumLe a b = true) (h2 : jsNumLe b c = true) :
    jsNumLe a c = true := by
  cases a <;> cases b <;> cases c <;> simp_all [jsNumLe]
  exact le_trans h1 h2

/-- A stable sort moves no element across another one it ties with: filtering
the sorted list by any class of mutually `le`-equivalent elements gives the
same list as filtering the input. -/
theorem mergeSort_filter_eq {α : Type} (le : α → α → Bool)
    (htrans : ∀ (a b c : α), le a b → le b c → le a c)
    (htotal : ∀ (a b : α), le a b || le b a)
    (p : α → Bool) (hp : ∀ x y, p x → p y → le x y)
    (l : List α) : (l.mergeSort le).filter p = l.filter p := by
  have hpw : (l.filter p).Pairwise (fun a b => le a b) := by
    refine List.pairwise_of_forall_mem_list ?_
    intro a ha b hb
    exact hp a b (List.of_mem_filter ha) (List.of_mem_filter hb)
  have hsub : List.Sublist (l.filter p) (l.mergeSort le) :=
    List.sublist_mergeSort htrans htotal hpw (List.filter_sublist l)
  have h2 : List.Sublist (l.filter p) ((l.mergeSort le).filter p) := by
    have h3 := hsub.filter p
    rwa [List.filter_eq_self.mpr (fun a ha => List.of_mem_filter ha)] at h3
  have hlen : ((l.mergeSort le).filter p).length = (l.filter p).length :=
    ((List.mergeSort_perm l le).filter p).length_eq
  exact (h2.eq_of_length hlen.symm).symm

/-! ## Claim C1 -/

/-- Claim C1: for every list of records, `transformData` returns a list whose
scores are non-increasing, and the entries of any fixed score appear in the
same relative order as their source records (stability): filtering the output
by a score equals filtering the entry images of the input, in input order. -/
theorem transformData_sorted_and_stable (rows : List Record) :
    (transformData rows).Pairwise (fun a b => jsNumLe b.score a.score = true)
    ∧ ∀ s : JsNum,
        (transformData rows).filter (fun e => decide (e.score = s))
          = (rows.map toEntry).filter (fun e => decide (e.score = s)) := by
  have htrans : ∀ (a b c : Entry),
      jsNumLe b.score a.score → jsNumLe c.score b.score → jsNumLe c.score a.score :=
    fun a b c h1 h2 => jsNumLe_trans _ _ _ h2 h1
  have htotal : ∀ (a b : Entry),
      (jsNumLe b.score a.score || jsNumLe a.score b.score) = true :=
    fun a b => jsNumLe_total _ _
  constructor
  · exact List.sorted_mergeSort htrans htotal (rows.map toEntry)
  · intro s
    refine mergeSort_filter_eq _ htrans htotal (fun e => decide (e.score = s)) ?_ _
    intro x y hx hy
    rw [of_decide_eq_true hx, of_decide_eq_true hy]
    exact jsNumLe_refl s

/-! ## Claim C10 -/

/-- Claim C10: `transformData` returns exactly one entry per input record —
the output is a permutation of the per-record entry images, and in particular
has the same length, whatever the records contain. -/
theorem transformData_one_entry_per_record (rows : List Record) :
    List.Perm (transformData rows) (rows.map toEntry)
    ∧ (transformData rows).length = rows.length := by
  constructor
  · exact List.mergeSort_perm (rows.map toEntry) _
  · simp [transformData]

/-! ## Claim C5 -/

/-- Claim C5: a record whose resolved score text is absent, or present but
with no parsable numeric prefix, gets score exactly 0 (and `toEntry` is a
total function — no error can be raised). -/
theorem unparsable_score_yields_zero (r : Record) :
    (resolveScoreText r = none → (toEntry r).score = JsNum.num 0)
    ∧ ∀ s, resolveScoreText r = some s → jsParseFloat s = none →
        (toEntry r).score = JsNum.num 0 := by
  constructor
  · intro h
    simp [toEntry, parseScore, h]
  · intro s hs hp
    simp [toEntry, parseScore, hs, hp]

/-- Witness for C5 at a record whose only score header holds `"abc"`. -/
theorem unparsable_score_yields_zero_witness :
    resolveScoreText rC5 = some "abc" ∧ jsParseFloat "abc" = none
    ∧ (toEntry rC5).score = JsNum.num 0 := by
  have h1 : resolveScoreText rC5 = some "abc" := by decide
  have h2 : jsParseFloat "abc" = none := by decide
  exact ⟨h1, h2, (unparsable_score_yields_zero rC5).2 "abc" h1 h2⟩

/-! ## Claim C8 -/

/-- Claim C8: a record with no first-name header at all and a resolved last
name `v` yields an entry named exactly `v` — no leading separator space. -/
theorem lastname_only_no_separator (r : Record) (v : String)
    (h1 : r "First Name" = none) (h2 : r "First name" = none) (h3 : r "First" = none)
    (hl : resolveLastName r = some v) :
    (toEntry r).name = v := by
  have hf : resolveFirstName r = none := by
    simp [resolveFirstName, jsOr, truthyStr, h1, h2, h3]
  by_cases hv : v = ""
  · subst hv
    simp [toEntry, jsFilterJoin, hf, hl]
    rfl
  · simp [toEntry, jsFilterJoin, hf, hl, hv]
    rfl

/-- Witness for C8 at a record carrying only `Last Name ↦ "Lee"`. -/
theorem lastname_only_no_separator_witness :
    rC8 "First Name" = none ∧ rC8 "First name" = none ∧ rC8 "First" = none
    ∧ resolveLastName rC8 = some "Lee" ∧ (toEntry rC8).name = "Lee" := by
  have h1 : rC8 "First Name" = none := by decide
  have h2 : rC8 "First name" = none := by decide
  have h3 : rC8 "First" = none := by decide
  have hl : resolveLastName rC8 = some "Lee" := by decide
  exact ⟨h1, h2, h3, hl, lastname_only_no_separator rC8 "Lee" h1 h2 h3 hl⟩

/-! ## Claim C3 -/

theorem firstTruthy_cons (o : Option String) (t : List (Option String)) :
    firstTruthy (o :: t) = if truthyStr o = true then o else firstTruthy t := by
  rcases o with _ | s
  · simp [firstTruthy, truthyStr, List.findSome?]
  · by_cases hs : s = "" <;> simp [firstTruthy, truthyStr, hs, List.findSome?]

theorem firstTruthy_some (xs : List (Option String)) (v : String)
    (h : firstTruthy xs = some v) : v ≠ "" := by
  unfold firstTruthy at h
  obtain ⟨o, -, ho⟩ := List.exists_of_findSome?_eq_some h
  rcases o with _ | s
  · simp at ho
  · by_cases hs : s = ""
    · simp [hs] at ho
    · simp [hs] at ho
      rw [← ho]
      exact hs

/-- When the spec-level "first non-empty alternative" resolution produces a
value, the JS `a || b || c` chain produces the same value. -/
theorem jsOr3_of_firstTruthy (a b c : Option String) (v : String)
    (h : firstTruthy [a, b, c] = some v) : jsOr (jsOr a b) c = some v := by
  rw [firstTruthy_cons, firstTruthy_cons, firstTruthy_cons] at h
  by_cases ha : truthyStr a = true
  · rw [if_pos ha] at h
    rw [h] at ha
    rw [h]
    simp [jsOr, ha]
  · rw [if_neg ha] at h
    by_cases hb : truthyStr b = true
    · rw [if_pos hb] at h
      rw [h] at hb
      rw [h]
      simp [jsOr, ha, hb]
    · rw [if_neg hb] at h
      by_cases hc : truthyStr c = true
      · rw [if_pos hc] at h
        rw [h]
        simp [jsOr, ha, hb]
      · rw [if_neg hc] at h
        exact absurd h (by simp [firstTruthy])

/-- Counterexample to claim C3 as stated: in `rC3` the first first-name
alternative `"First Name"` is present (with the empty string), yet the
produced name is built from the later alternative `"First"` — not from the
first present one, under either reading of joining an empty left part. -/
theorem field_resolution_first_present_cex :
    rC3 "First Name" = some "" ∧ rC3 "First" = some "X"
    ∧ (toEntry rC3).name = "X Lee"
    ∧ ¬("X Lee" = "Lee") ∧ ¬("X Lee" = " Lee") := by
  decide

/-- Claim C3, amended: each entry field resolves to the first alternative
whose value is present AND non-empty (an alternative present with the empty
string is skipped, exactly like an absent one); when both name sides resolve
this way the name is their values joined by a single space, the group is the
resolved dealership value, and the score is the parse of the resolved score
text. -/
theorem field_resolution_first_nonempty (r : Record) (f l g s : String)
    (hf : firstTruthy [r "First Name", r "First name", r "First"] = some f)
    (hl : firstTruthy [r "Last Name", r "Last name", r "Last"] = some l)
    (hg : firstTruthy [r "Dealership", r "Dealer", r "Company"] = some g)
    (hs : firstTruthy [r "Total Score", r "Score", r "Total"] = some s) :
    (toEntry r).name = f ++ " " ++ l
    ∧ (toEntry r).dealership = some g
    ∧ (toEntry r).score = parseScore (some s) := by
  have hf' : resolveFirstName r = some f := jsOr3_of_firstTruthy _ _ _ _ hf
  have hl' : resolveLastName r = some l := jsOr3_of_firstTruthy _ _ _ _ hl
  have hg' : resolveDealership r = some g := jsOr3_of_firstTruthy _ _ _ _ hg
  have hs' : resolveScoreText r = some s := jsOr3_of_firstTruthy _ _ _ _ hs
  have hfne : f ≠ "" := firstTruthy_some _ _ hf
  have hlne : l ≠ "" := firstTruthy_some _ _ hl
  refine ⟨?_, ?_, ?_⟩
  · simp only [toEntry]
    rw [hf', hl']
    simp [jsFilterJoin, hfne, hlne]
    rfl
  · simp only [toEntry]
    exact hg'
  · simp only [toEntry]
    rw [hs']

/-- Witness for the amended C3 at a record with all four fields present and
non-empty. -/
theorem field_resolution_first_nonempty_witness :
    firstTruthy [rC3w "First Name", rC3w "First name", rC3w "First"] = some "Ann"
    ∧ firstTruthy [rC3w "Last Name", rC3w "Last name", rC3w "Last"] = some "Lee"
    ∧ firstTruthy [rC3w "Dealership", rC3w "Dealer", rC3w "Company"] = some "Acme"
    ∧ firstTruthy [rC3w "Total Score", rC3w "Score", rC3w "Total"] = some "88"
    ∧ (toEntry rC3w).name = "Ann" ++ " " ++ "Lee"
    ∧ (toEntry rC3w).dealership = some "Acme"
    ∧ (toEntry rC3w).score = parseScore (some "88") := by
  have h1 : firstTruthy [rC3w "First Name", rC3w "First name", rC3w "First"] = some "Ann" := by
    decide
  have h2 : firstTruthy [rC3w "Last Name", rC3w "Last name", rC3w "Last"] = some "Lee" := by
    decide
  have h3 : firstTruthy [rC3w "Dealership", rC3w "Dealer", rC3w "Company"] = some "Acme" := by
    decide
  have h4 : firstTruthy [rC3w "Total Score", rC3w "Score", rC3w "Total"] = some "88" := by
    decide
  obtain ⟨hn, hd, hsc⟩ := field_resolution_first_nonempty rC3w "Ann" "Lee" "Acme" "88" h1 h2 h3 h4
  exact ⟨h1, h2, h3, h4, hn, hd, hsc⟩

/-! ## Claim C2 -/

theorem fetchCSVAux_first_success (w : String → FetchOutcome) (url : String)
    (st : Nat) (body : String) (hok : 200 ≤ st ∧ st ≤ 299) (hne : jsTrim body ≠ "") :
    ∀ (ps : List String) (k : Nat) (le : Option String), k < ps.length →
      (∀ j, j < k → strategyFails (w (strategyTarget url (ps.getD j "")))) →
      w (strategyTarget url (ps.getD k "")) = FetchOutcome.response st body →
      fetchCSVAux w url ps le
        = (Except.ok body, (ps.take (k + 1)).map (strategyTarget url)) := by
  intro ps
  induction ps with
  | nil =>
    intro k le hk
    simp at hk
  | cons p rest ih =>
    intro k le hk hfail hresp
    match k with
    | 0 =>
      simp only [List.getD_cons_zero] at hresp
      have hbody : body ≠ "" := fun hb => hne (by rw [hb]; rfl)
      simp only [fetchCSVAux, hresp, if_pos hok, if_pos (And.intro hbody hne)]
      simp
    | k' + 1 =>
      have hf0 := hfail 0 (Nat.succ_pos k')
      simp only [List.getD_cons_zero] at hf0
      simp only [List.getD_cons_succ] at hresp
      have hk' : k' < rest.length := by simpa using hk
      have hfail' : ∀ j, j < k' → strategyFails (w (strategyTarget url (rest.getD j ""))) := by
        intro j hj
        have := hfail (j + 1) (by omega)
        simpa [List.getD_cons_succ] using this
      cases hw : w (strategyTarget url p) with
      | netError m =>
        simp only [fetchCSVAux, hw]
        rw [ih k' (some m) hk' hfail' hresp]
        simp
      | response st0 b0 =>
        rw [hw] at hf0
        simp only [strategyFails] at hf0
        by_cases hok0 : 200 ≤ st0 ∧ st0 ≤ 299
        · have hb0 : jsTrim b0 = "" := by
            rcases hf0 with h | h
            · exact absurd hok0 h
            · exact h
          have hcond : ¬(b0 ≠ "" ∧ jsTrim b0 ≠ "") := fun hcc => hcc.2 hb0
          simp only [fetchCSVAux, hw, if_pos hok0, if_neg hcond]
          rw [ih k' le hk' hfail' hresp]
          simp
        · simp only [fetchCSVAux, hw, if_neg hok0]
          rw [ih k' (some ("HTTP " ++ toString st0)) hk' hfail' hresp]
          simp

/-- Claim C2: strategies are tried in declared order — the direct request
first, then each proxy prefix applied to the URL-encoded target — and the
first strategy whose response is OK with a non-blank body has its body
returned; the targets actually requested are exactly the first `k + 1`, so
no later strategy is ever attempted. -/
theorem fetchCSV_first_success (w : String → FetchOutcome) (url : String)
    (k st : Nat) (body : String)
    (hk : k < proxies.length)
    (hfail : ∀ j, j < k → strategyFails (w (strategyTarget url (proxies.getD j ""))))
    (hresp : w (strategyTarget url (proxies.getD k "")) = FetchOutcome.response st body)
    (hok : 200 ≤ st ∧ st ≤ 299) (hne : jsTrim body ≠ "") :
    fetchCSV w url = Except.ok body
    ∧ fetchTargets w url = (proxies.take (k + 1)).map (strategyTarget url) := by
  have h := fetchCSVAux_first_success w url st body hok hne proxies k none hk hfail hresp
  constructor
  · unfold fetchCSV
    rw [h]
  · unfold fetchTargets
    rw [h]

/-- Witness for C2: the direct request gets a 404, the first proxy a 200
with body `data`; the fetch returns `data` and requests exactly the first
two targets. -/
theorem fetchCSV_first_success_witness :
    strategyFails (wC2 (strategyTarget "https://x.test/a" (proxies.getD 0 "")))
    ∧ wC2 (strategyTarget "https://x.test/a" (proxies.getD 1 ""))
        = FetchOutcome.response 200 "data"
    ∧ jsTrim "data" ≠ ""
    ∧ fetchCSV wC2 "https://x.test/a" = Except.ok "data"
    ∧ fetchTargets wC2 "https://x.test/a"
        = (proxies.take 2).map (strategyTarget "https://x.test/a") := by
  have hf0 : wC2 (strategyTarget "https://x.test/a" (proxies.getD 0 ""))
      = FetchOutcome.response 404 "" := by decide
  have hfail : ∀ j, j < 1 →
      strategyFails (wC2 (strategyTarget "https://x.test/a" (proxies.getD j ""))) := by
    intro j hj
    have hj0 : j = 0 := by omega
    subst hj0
    rw [hf0]
    exact Or.inl (by decide)
  have hresp : wC2 (strategyTarget "https://x.test/a" (proxies.getD 1 ""))
      = FetchOutcome.response 200 "data" := by decide
  have hne : jsTrim "data" ≠ "" := by decide
  obtain ⟨ha, hb⟩ := fetchCSV_first_success wC2 "https://x.test/a" 1 200 "data"
    (by decide) hfail hresp (by decide) hne
  exact ⟨hfail 0 Nat.one_pos, hresp, hne, ha, hb⟩

/-! ## Claim C6 -/

/-- Claim C6: when the fetch stage of a cycle fails (the only stage that can
throw — parse, transform and render are total), the orchestration logs the
error with the fixed prefix and drops the cycle, leaving the display surface
exactly as it was. -/
theorem refresh_failure_leaves_display (w : String → FetchOutcome) (dom : Dom)
    (log : List String) (e : String)
    (h : fetchCSV w SHEET_CSV_URL = Except.error e) :
    refreshLeaderboard w dom log = (dom, log ++ ["Failed to update leaderboard: " ++ e]) := by
  unfold refreshLeaderboard
  rw [h]

/-- Witness for C6: every request fails at the network level; the display
surface is untouched and the error is logged. -/
theorem refresh_failure_leaves_display_witness :
    fetchCSV wC6 SHEET_CSV_URL = Except.error "net down"
    ∧ refreshLeaderboard wC6 (some []) []
        = (some [], ["Failed to update leaderboard: " ++ "net down"]) := by
  have h : fetchCSV wC6 SHEET_CSV_URL = Except.error "net down" := rfl
  exact ⟨h, refresh_failure_leaves_display wC6 (some []) [] "net down" h⟩

/-! ## Claim C7 -/

/-- Claim C7: each render call fully replaces the display surface's child
rows with one row per entry; after rendering a 5-entry list and then a
2-entry list, exactly 2 rows remain, with no residue from the first call. -/
theorem renderLeaderboard_replaces_rows (d1 d2 : List Entry) (rows0 : List Row)
    (_h1 : d1.length = 5) (h2 : d2.length = 2) :
    renderLeaderboard d2 (renderLeaderboard d1 (some rows0))
        = some (d2.enum.map (fun p => mkRow (p.1 + 1) p.2))
    ∧ ∀ rs, renderLeaderboard d2 (renderLeaderboard d1 (some rows0)) = some rs →
        rs.length = 2 := by
  have hstep : renderLeaderboard d2 (renderLeaderboard d1 (some rows0))
      = some (d2.enum.map (fun p => mkRow (p.1 + 1) p.2)) := by
    simp [renderLeaderboard]
  refine ⟨hstep, ?_⟩
  intro rs hrs
  rw [hstep] at hrs
  have := Option.some.inj hrs
  rw [← this]
  simp [h2]

/-- Witness for C7 with concrete 5- and 2-entry lists. -/
theorem renderLeaderboard_replaces_rows_witness :
    ([eC7 "a", eC7 "b", eC7 "c", eC7 "d", eC7 "e"] : List Entry).length = 5
    ∧ ([eC7 "f", eC7 "g"] : List Entry).length = 2
    ∧ (∀ rs, renderLeaderboard [eC7 "f", eC7 "g"]
        (renderLeaderboard [eC7 "a", eC7 "b", eC7 "c", eC7 "d", eC7 "e"] (some [])) = some rs →
        rs.length = 2) := by
  obtain ⟨-, hb⟩ := renderLeaderboard_replaces_rows
    [eC7 "a", eC7 "b", eC7 "c", eC7 "d", eC7 "e"] [eC7 "f", eC7 "g"] [] rfl rfl
  exact ⟨rfl, rfl, hb⟩
